import Mathlib

/-!
Shallow embedding of `orcid-sync-enriched.js` (publication sync script:
ORCID fetch → CrossRef enrichment → dedup merge into a publication store).

Strings are modelled as Lean `String` over their character lists; JS string
truthiness is "non-empty"; the JS number-or-empty-string `year` field is
modelled as `Nat` with `0` playing the role of the falsy empty value.
Network calls are modelled as explicit oracle parameters
(`String → Except String _` for throwing fetches, with errors as `.error`).
-/

/-- JS whitespace class `\s` (ASCII part), as used by `trim()` and the
`\s+` regex in the script. -/
def jsIsSpace (c : Char) : Bool :=
  c = ' ' || c = '\t' || c = '\n' || c = '\r' || c = '\x0b' || c = '\x0c'

/-- ASCII lower-casing of one character, as `toLowerCase()` acts on the
ASCII range (the only range the script's data uses). -/
def lowerChar (c : Char) : Char :=
  match c with
  | 'A' => 'a' | 'B' => 'b' | 'C' => 'c' | 'D' => 'd' | 'E' => 'e'
  | 'F' => 'f' | 'G' => 'g' | 'H' => 'h' | 'I' => 'i' | 'J' => 'j'
  | 'K' => 'k' | 'L' => 'l' | 'M' => 'm' | 'N' => 'n' | 'O' => 'o'
  | 'P' => 'p' | 'Q' => 'q' | 'R' => 'r' | 'S' => 's' | 'T' => 't'
  | 'U' => 'u' | 'V' => 'v' | 'W' => 'w' | 'X' => 'x' | 'Y' => 'y'
  | 'Z' => 'z'
  | c => c

def toLowerL (l : List Char) : List Char := l.map lowerChar

/-- `s.toLowerCase()`. -/
def lowerStr (s : String) : String := ⟨toLowerL s.data⟩

/-- Leading- and trailing-whitespace removal on character lists. -/
def trimL (l : List Char) : List Char :=
  ((l.dropWhile jsIsSpace).reverse.dropWhile jsIsSpace).reverse

/-- `s.trim()`. -/
def jsTrim (s : String) : String := ⟨trimL s.data⟩

/-- The four concrete heads matched by the regex
`^https?:\/\/(dx\.)?doi\.org\//i` (in lower case). -/
def doiHeads : List (List Char) :=
  ["https://dx.doi.org/".data, "http://dx.doi.org/".data,
   "https://doi.org/".data, "http://doi.org/".data]

/-- Strip one case-insensitive `http(s)://(dx.)doi.org/` head, if present
(the regex is anchored and `replace` fires at most once). -/
def stripDoiHead (l : List Char) : List Char :=
  match doiHeads.find? (fun h => toLowerL (l.take h.length) == h) with
  | some h => l.drop h.length
  | none => l

/-- `normalizeDOI(d)` from the script:
`if(!d) return ''; return d.trim().replace(/^https?:\/\/(dx\.)?doi\.org\//i,'').toLowerCase();` -/
def normalizeDOI (d : String) : String :=
  if d = "" then "" else lowerStr ⟨stripDoiHead (jsTrim d).data⟩

/-- One pass of the regex replacement `\s+` → `' '` (each maximal run of
whitespace becomes a single space); the flag records whether the previous
character belonged to a run already replaced. -/
def collapseWsAux : Bool → List Char → List Char
  | _, [] => []
  | prev, c :: rest =>
    if jsIsSpace c then
      if prev then collapseWsAux true rest else ' ' :: collapseWsAux true rest
    else c :: collapseWsAux false rest

/-- `t.replace(/\s+/g,' ')`. -/
def collapseWs (l : List Char) : List Char := collapseWsAux false l

/-- `t.replace(/[^a-zA-Z0-9 ]/g,'')`. -/
def keepAlnumSpace (l : List Char) : List Char :=
  l.filter (fun c =>
    ('a' ≤ c && c ≤ 'z') || ('A' ≤ c && c ≤ 'Z') || ('0' ≤ c && c ≤ '9') || c = ' ')

/-- `normalizeTitle(t)` from the script:
`if(!t) return ''; return t.replace(/\s+/g,' ').replace(/[^a-zA-Z0-9 ]/g,'').trim().toLowerCase();`
Note the order: whitespace runs are collapsed first, punctuation is removed
second. -/
def normalizeTitle (t : String) : String :=
  if t = "" then "" else lowerStr ⟨trimL (keepAlnumSpace (collapseWs t.data))⟩

/-- Levenshtein edit distance (the `levenshtein-edit-distance` npm package,
case-sensitive mode), written with an explicit fuel so that it is
structurally recursive and kernel-computable.  Every recursive call lowers
`xs.length + ys.length` by at least one while using exactly one unit of
fuel, so with initial fuel `xs.length + ys.length` the `0`-fuel branch is
unreachable. -/
def levAux : Nat → List Char → List Char → Nat
  | _, [], ys => ys.length
  | _, x :: xs, [] => (x :: xs).length
  | 0, _, _ => 0
  | fuel + 1, x :: xs, y :: ys =>
    if x = y then levAux fuel xs ys
    else 1 + min (levAux fuel xs ys) (min (levAux fuel (x :: xs) ys) (levAux fuel xs (y :: ys)))

/-- The package export `levenshtein` (named `levDist` here because Mathlib
already has a `levenshtein`). -/
def levDist (xs ys : List Char) : Nat := levAux (xs.length + ys.length) xs ys

/-- `MAX_TITLE_DISTANCE = 6`. -/
def MAX_TITLE_DISTANCE : Nat := 6

/-- The canonical internal publication record shape produced by the script
(`citations` never appears in this script's records, so it is omitted). -/
structure Paper where
  id : String := ""
  title : String := ""
  authors : String := ""
  year : Nat := 0
  venue : String := ""
  doi : String := ""
  url : String := ""
  source : String := ""
deriving DecidableEq

/-- `alreadyExists(existingPapers, candidate)` from the script. -/
def alreadyExists (existingPapers : List Paper) (candidate : Paper) : Bool :=
  if candidate.doi ≠ "" then
    let norm := normalizeDOI candidate.doi
    existingPapers.any (fun p => p.doi != "" && normalizeDOI p.doi == norm)
  else if candidate.title ≠ "" then
    let nt := normalizeTitle candidate.title
    existingPapers.any (fun p =>
      let pt := normalizeTitle p.title
      pt != "" && decide (levDist nt.data pt.data ≤ MAX_TITLE_DISTANCE))
  else false

/-- One researcher's stored value `{ name, papers }`. -/
structure Entry where
  name : String
  papers : List Paper
deriving DecidableEq

/-- The publications dataset: facultyKey → entry. -/
def Store := String → Option Entry

def emptyStore : Store := fun _ => none

/-- The `for(const np of newPapers)` loop body of `mergePapers`: push each
candidate that does not already exist, counting additions. -/
def mergeList : List Paper → List Paper → List Paper × Nat
  | arr, [] => (arr, 0)
  | arr, np :: rest =>
    if alreadyExists arr np then mergeList arr rest
    else
      let r := mergeList (arr ++ [np]) rest
      (r.1, r.2 + 1)

/-- `existing[facultyKey] || { name: facultyName || facultyKey, papers: [] }`:
the entry read (or freshly created) by `mergePapers`. -/
def entryOf (existing : Store) (facultyKey facultyName : String) : Entry :=
  match existing facultyKey with
  | some e => e
  | none => ⟨if facultyName ≠ "" then facultyName else facultyKey, []⟩

/-- `mergePapers(existing, facultyKey, facultyName, newPapers)` from the
script; returns the updated dataset together with the `added` count. -/
def mergePapers (existing : Store) (facultyKey facultyName : String)
    (newPapers : List Paper) : Store × Nat :=
  let entry := entryOf existing facultyKey facultyName
  let r := mergeList entry.papers newPapers
  (fun k => if k = facultyKey then some ⟨entry.name, r.1⟩ else existing k, r.2)

/-- One `external-id` entry of an ORCID document (`external-id-type`,
`external-id-value`, and the `.value` of `external-id-url`); the same shape
covers the `external_identifier` entries of a work detail. -/
structure ExtId where
  idType : String := ""
  idValue : String := ""
  idUrl : String := ""
deriving DecidableEq

/-- An ORCID work summary, flattened to the leaves the script reads
(`summary?.title?.title?.value`, `summary?.publication_date?.year`,
`summary?.journal_title`, `summary['display-name']`,
`summary['external-ids']['external-id']` when it is an array,
`summary?.path`, `summary['put-code']`); absent leaves are the empty
string / `0` / `none`. -/
structure OrcidSummary where
  title : String := ""
  pubYear : Nat := 0
  journalTitle : String := ""
  displayName : String := ""
  extIds : Option (List ExtId) := none
  path : String := ""
  putCode : String := ""
deriving DecidableEq

/-- One contributor of a work detail: `c['credit-name']?.value` and
`c.contributor?.name`. -/
structure Contributor where
  creditName : String := ""
  contribName : String := ""
deriving DecidableEq

/-- An ORCID work detail, flattened to the leaves the script reads;
`externalIdentifiers` is `none` when `detail.external_identifiers` is
absent (the inner `|| []` default is folded into the list). -/
structure OrcidDetail where
  title : String := ""
  pubYear : Nat := 0
  journalTitle : String := ""
  sourceName : String := ""
  contributors : Option (List Contributor) := none
  externalIdentifiers : Option (List ExtId) := none
  url : String := ""
deriving DecidableEq

/-- `startsWith` on character lists (first argument is the pattern). -/
def headMatches : List Char → List Char → Bool
  | [], _ => true
  | _ :: _, [] => false
  | a :: as, b :: bs => a == b && headMatches as bs

/-- Substring test, for `type.includes('doi')`. -/
def hasSubL (needle : List Char) : List Char → Bool
  | [] => headMatches needle []
  | c :: rest => headMatches needle (c :: rest) || hasSubL needle rest

/-- `(s || '').toLowerCase().includes('doi')`. -/
def containsDoi (s : String) : Bool := hasSubL "doi".data (toLowerL s.data)

/-- `extractDoiFromOrcidSummary(summary)` from the script: scan the
`external-id` array for the first id whose type mentions `doi`, and
normalize `val || url`. -/
def extractDoiFromOrcidSummary (summary : OrcidSummary) : String :=
  match summary.extIds with
  | some ext =>
    match ext.find? (fun e => containsDoi e.idType) with
    | some e => normalizeDOI (if e.idValue ≠ "" then e.idValue else e.idUrl)
    | none => ""
  | none => ""

/-- The `reduce` over `detail.external_identifiers.external_identifier`
in `transformOrcidWork`: the first doi-typed identifier (reached while the
accumulator is still empty) is normalized. -/
def detailDoi (ids : List ExtId) : String :=
  ids.foldl
    (fun acc e =>
      if acc = "" ∧ containsDoi e.idType then
        normalizeDOI (if e.idValue ≠ "" then e.idValue else e.idUrl)
      else acc)
    ""

/-- `transformOrcidWork(summary, detail)` from the script.  `rnd` stands in
for the `Math.random()` suffix used when the summary has no put-code. -/
def transformOrcidWork (summary : OrcidSummary) (detail : Option OrcidDetail)
    (rnd : String) : Paper :=
  let title := match detail with
    | some d => if d.title ≠ "" then d.title else summary.title
    | none => summary.title
  let year := match detail with
    | some d => if d.pubYear ≠ 0 then d.pubYear else summary.pubYear
    | none => summary.pubYear
  let venue := match detail with
    | some d =>
      if d.journalTitle ≠ "" then d.journalTitle
      else if d.sourceName ≠ "" then d.sourceName
      else summary.journalTitle
    | none => summary.journalTitle
  let authors := match detail with
    | some d =>
      match d.contributors with
      | some cs =>
        String.intercalate ", "
          (((cs.map (fun c => if c.creditName ≠ "" then c.creditName else c.contribName))).filter
            (fun s => s ≠ ""))
      | none => summary.displayName
    | none => summary.displayName
  let doi := match detail with
    | some d =>
      match d.externalIdentifiers with
      | some ids => detailDoi ids
      | none => extractDoiFromOrcidSummary summary
    | none => extractDoiFromOrcidSummary summary
  let url := match detail with
    | some d => if d.url ≠ "" then d.url else summary.path
    | none => summary.path
  { id := if summary.putCode ≠ "" then "orcid_" ++ summary.putCode
          else "orcid_tmp_" ++ rnd,
    title := title, authors := authors, year := year, venue := venue,
    doi := doi, url := url, source := "ORCID" }

/-- A CrossRef JSON field that may be a plain string or an array of
strings (`msg.title`, `msg['container-title']`). -/
inductive StrOrArr where
  | str (s : String)
  | arr (l : List String)
deriving DecidableEq

/-- One CrossRef author object. -/
structure CrAuthor where
  family : String := ""
  given : String := ""
  name : String := ""
deriving DecidableEq

/-- The `message` object of a CrossRef works response, flattened to the
leaves the effective `fetchCrossref` reads; each date field holds the
`date-parts` array when present. -/
structure CrMsg where
  title : Option StrOrArr := none
  author : List CrAuthor := []
  publishedPrint : Option (List (List Nat)) := none
  publishedOnline : Option (List (List Nat)) := none
  issued : Option (List (List Nat)) := none
  containerTitle : Option StrOrArr := none
  publisher : String := ""
  url : String := ""
deriving DecidableEq

/-- The record `fetchCrossref` returns. -/
structure CrPaper where
  title : String := ""
  authors : String := ""
  year : Nat := 0
  venue : String := ""
  doi : String := ""
  url : String := ""
deriving DecidableEq

/-- The `d && d['date-parts'] && d['date-parts'][0] && d['date-parts'][0][0]`
truthiness chain (a year of `0` is falsy, matching the `Nat`-with-`0`
convention). -/
def yearOfParts (d : Option (List (List Nat))) : Nat :=
  match d with
  | some ((y :: _) :: _) => y
  | _ => 0

/-- The effective `fetchCrossref(doi)` (the second declaration in the file,
lines 309-326, which shadows the earlier one under JS function hoisting).
`lookup` models `fetchJson` on the works URL; `.error` models a thrown
error. -/
def fetchCrossref (lookup : String → Except String CrMsg) (rawDoi : String) :
    Except String CrPaper :=
  let doi := normalizeDOI rawDoi
  if doi = "" then .error "empty doi"
  else
    match lookup doi with
    | .error e => .error e
    | .ok msg =>
      let title := match msg.title with
        | some (.arr l) => l.headD ""
        | some (.str s) => s
        | none => ""
      let authors := String.intercalate ", "
        ((msg.author.map (fun a =>
            if a.given ≠ "" ∧ a.family ≠ "" then a.given ++ " " ++ a.family
            else if a.name ≠ "" then a.name
            else if a.family ≠ "" then a.family
            else a.given)).filter (fun s => s ≠ ""))
      let year :=
        if yearOfParts msg.publishedPrint ≠ 0 then yearOfParts msg.publishedPrint
        else if yearOfParts msg.publishedOnline ≠ 0 then yearOfParts msg.publishedOnline
        else yearOfParts msg.issued
      let venue := match msg.containerTitle with
        | some (.arr l) => l.headD ""
        | some (.str s) => if s ≠ "" then s else msg.publisher
        | none => msg.publisher
      let urlOut := if msg.url ≠ "" then msg.url else "https://doi.org/" ++ doi
      .ok { title := title, authors := authors, year := year, venue := venue,
            doi := doi, url := urlOut }

/-- `fetchCrossrefSafe(doi)`: catch, retry once against the same oracle,
and convert a second failure into `none`. -/
def fetchCrossrefSafe (lookup : String → Except String CrMsg) (doi : String) :
    Option CrPaper :=
  match fetchCrossref lookup doi with
  | .ok c => some c
  | .error _ =>
    match fetchCrossref lookup doi with
    | .ok c => some c
    | .error _ => none

/-- The per-work enrichment step of `main` (lines 242-266): overlay
CrossRef fields onto the ORCID record when the work has a DOI. -/
def enrichWork (lookup : String → Except String CrMsg) (op : Paper) : Paper :=
  if op.doi ≠ "" then
    match fetchCrossrefSafe lookup op.doi with
    | some cr =>
      { op with
        title := if cr.title ≠ "" then cr.title else op.title,
        authors := if cr.authors ≠ "" then cr.authors else op.authors,
        year := if cr.year ≠ 0 then cr.year else op.year,
        venue := if cr.venue ≠ "" then cr.venue else op.venue,
        url := if cr.url ≠ "" then cr.url
               else if op.url ≠ "" then op.url
               else "https://doi.org/" ++ normalizeDOI op.doi,
        doi := normalizeDOI op.doi,
        source := "CrossRef/ORCID" }
    | none => { op with doi := normalizeDOI op.doi }
  else op

/-- The per-researcher body of `main`'s try block, after the works have
been fetched: enrich every fetched work, then merge. -/
def processResearcher (lookup : String → Except String CrMsg) (S : Store)
    (key name : String) (fetched : List Paper) : Store × Nat :=
  mergePapers S key name (fetched.map (enrichWork lookup))

/-- One mapping value `{ name, orcid }`. -/
structure FacultyInfo where
  name : String := ""
  orcid : String := ""
deriving DecidableEq

/-- One iteration of the researcher loop of `main` (lines 227-280): skip
an entry without an ORCID id; a throwing works fetch (`.error`) is caught
at the researcher boundary and leaves the accumulated state untouched;
otherwise enrich and merge, accumulating `totalAdded`. -/
def mainStep (fetchWorks : String → Except String (List Paper))
    (lookup : String → Except String CrMsg)
    (acc : Store × Nat) (kv : String × FacultyInfo) : Store × Nat :=
  if kv.2.orcid = "" then acc
  else
    match fetchWorks (jsTrim kv.2.orcid) with
    | .error _ => acc
    | .ok papers =>
      let r := processResearcher lookup acc.1 kv.1
        (if kv.2.name ≠ "" then kv.2.name else kv.1) papers
      (r.1, acc.2 + r.2)

/-- The researcher loop of `main`. -/
def runMainCore (fetchWorks : String → Except String (List Paper))
    (lookup : String → Except String CrMsg)
    (m : List (String × FacultyInfo)) (S₀ : Store) : Store × Nat :=
  m.foldl (mainStep fetchWorks lookup) (S₀, 0)

/-- `main`'s top level: a missing or empty mapping document exits with
code 1 before touching the store; otherwise the run completes with exit
code 0 (per-researcher failures are logged, never fatal). -/
def mainRun (mappingDoc : Option (List (String × FacultyInfo)))
    (fetchWorks : String → Except String (List Paper))
    (lookup : String → Except String CrMsg) (S₀ : Store) : Nat × Store :=
  match mappingDoc with
  | none => (1, S₀)
  | some m => if m = [] then (1, S₀) else (0, (runMainCore fetchWorks lookup m S₀).1)

/-- Modelled from the spec: "collapse every run of whitespace to a single
space", written independently of the code's `collapseWsAux` — inside a
whitespace run every character except the last is dropped, and the last
one becomes a single `' '`. -/
def specSquashWs : List Char → List Char
  | [] => []
  | [c] => if jsIsSpace c then [' '] else [c]
  | c :: d :: rest =>
    if jsIsSpace c then
      if jsIsSpace d then specSquashWs (d :: rest)
      else ' ' :: specSquashWs (d :: rest)
    else c :: specSquashWs (d :: rest)

/-- Modelled from the spec: `normalizeTitle` as the claim states it
(remove, then collapse, then trim, then lower-case). -/
def specNormalizeTitleClaim (t : String) : String :=
  if t = "" then "" else lowerStr ⟨trimL (specSquashWs (keepAlnumSpace t.data))⟩

/-- Modelled from the spec, amended: the same reference definition with the
two phases in the code's order (collapse whitespace runs first, remove
punctuation second). -/
def specNormalizeTitleAmended (t : String) : String :=
  if t = "" then "" else lowerStr ⟨trimL (keepAlnumSpace (specSquashWs t.data))⟩

/-- Papers field of the store entry for a key, `[]` when absent. -/
def oldPapersOf (S : Store) (k : String) : List Paper :=
  match S k with
  | some e => e.papers
  | none => []

theorem lowerChar_shape (c : Char) :
    lowerChar c = c ∨
      (lowerChar c ∈ "abcdefghijklmnopqrstuvwxyz".data ∧
        c ∈ "ABCDEFGHIJKLMNOPQRSTUVWXYZ".data) := by
  unfold lowerChar
  split <;> first | exact Or.inl rfl | exact Or.inr (by decide)

theorem lowerChar_space (c : Char) : jsIsSpace (lowerChar c) = jsIsSpace c := by
  rcases lowerChar_shape c with h | ⟨hl, hu⟩
  · rw [h]
  · have h1 : ∀ d ∈ "abcdefghijklmnopqrstuvwxyz".data, jsIsSpace d = false := by decide
    have h2 : ∀ d ∈ "ABCDEFGHIJKLMNOPQRSTUVWXYZ".data, jsIsSpace d = false := by decide
    rw [h1 _ hl, h2 _ hu]

theorem lowerChar_idem (c : Char) : lowerChar (lowerChar c) = lowerChar c := by
  rcases lowerChar_shape c with h | ⟨hl, _⟩
  · rw [h, h]
  · have h1 : ∀ d ∈ "abcdefghijklmnopqrstuvwxyz".data, lowerChar d = d := by decide
    exact h1 _ hl

theorem toLowerL_idem (l : List Char) : toLowerL (toLowerL l) = toLowerL l := by
  unfold toLowerL
  rw [List.map_map]
  exact List.map_congr_left (fun c _ => lowerChar_idem c)

theorem dropWhile_cons_of_neg {p : Char → Bool} {c : Char} (l : List Char)
    (h : p c = false) : (c :: l).dropWhile p = c :: l := by
  simp [List.dropWhile, h]

theorem length_dropWhile_le' (p : Char → Bool) (l : List Char) :
    (l.dropWhile p).length ≤ l.length := by
  induction l with
  | nil => simp
  | cons c t ih =>
    by_cases h : p c
    · rw [List.dropWhile_cons_of_pos h, List.length_cons]; omega
    · simp [dropWhile_cons_of_neg _ (by simpa using h)]

theorem head_not_of_dropWhile_fix {p : Char → Bool} {c : Char} {l : List Char}
    (h : (c :: l).dropWhile p = c :: l) : p c = false := by
  by_cases hc : p c
  · exfalso
    rw [List.dropWhile_cons_of_pos hc] at h
    have h1 := length_dropWhile_le' p l
    have hlen := congrArg List.length h
    rw [List.length_cons] at hlen
    omega
  · simpa using hc

theorem dropWhile_fix_take {p : Char → Bool} {l : List Char}
    (h : l.dropWhile p = l) (m : Nat) : (l.take m).dropWhile p = l.take m := by
  cases l with
  | nil => simp
  | cons c t =>
    cases m with
    | zero => simp
    | succ m => exact dropWhile_cons_of_neg _ (head_not_of_dropWhile_fix h)

theorem dropWhile_fix_map_lower {l : List Char}
    (h : l.dropWhile jsIsSpace = l) :
    (toLowerL l).dropWhile jsIsSpace = toLowerL l := by
  cases l with
  | nil => simp [toLowerL]
  | cons c t =>
    have hc : jsIsSpace (lowerChar c) = false := by
      rw [lowerChar_space]; exact head_not_of_dropWhile_fix h
    simp only [toLowerL, List.map_cons]
    exact dropWhile_cons_of_neg _ hc

theorem dropWhile_idem (p : Char → Bool) (l : List Char) :
    (l.dropWhile p).dropWhile p = l.dropWhile p := by
  induction l with
  | nil => simp
  | cons c t ih =>
    by_cases h : p c
    · rw [List.dropWhile_cons_of_pos h]; exact ih
    · rw [dropWhile_cons_of_neg _ (by simpa using h), dropWhile_cons_of_neg _ (by simpa using h)]

theorem dropWhile_eq_drop (p : Char → Bool) (l : List Char) :
    ∃ k, l.dropWhile p = l.drop k := by
  induction l with
  | nil => exact ⟨0, rfl⟩
  | cons c t ih =>
    by_cases h : p c
    · obtain ⟨k, hk⟩ := ih
      exact ⟨k + 1, by rw [List.dropWhile_cons_of_pos h, List.drop_succ_cons, hk]⟩
    · exact ⟨0, dropWhile_cons_of_neg _ (by simpa using h)⟩

theorem stripDoiHead_eq_drop (l : List Char) : ∃ k, stripDoiHead l = l.drop k := by
  unfold stripDoiHead
  rcases doiHeads.find? (fun h => toLowerL (l.take h.length) == h) with _ | h
  · exact ⟨0, rfl⟩
  · exact ⟨h.length, rfl⟩

theorem dropWhile_fix_drop {p : Char → Bool} {l : List Char}
    (h : l.reverse.dropWhile p = l.reverse) (k : Nat) :
    (l.drop k).reverse.dropWhile p = (l.drop k).reverse := by
  rw [List.reverse_drop]
  exact dropWhile_fix_take h _

theorem trimL_lead_fix (l : List Char) :
    (trimL l).dropWhile jsIsSpace = trimL l := by
  unfold trimL
  obtain ⟨k, hk⟩ := dropWhile_eq_drop jsIsSpace (l.dropWhile jsIsSpace).reverse
  rw [hk, List.reverse_drop, List.length_reverse, List.reverse_reverse]
  exact dropWhile_fix_take (dropWhile_idem jsIsSpace l) _

theorem trimL_trail_fix (l : List Char) :
    (trimL l).reverse.dropWhile jsIsSpace = (trimL l).reverse := by
  unfold trimL
  rw [List.reverse_reverse]
  exact dropWhile_idem _ _

/-- `trim` is the identity on a string with no leading and no trailing
whitespace. -/
theorem trimL_eq_self {l : List Char}
    (h1 : l.dropWhile jsIsSpace = l)
    (h2 : l.reverse.dropWhile jsIsSpace = l.reverse) : trimL l = l := by
  unfold trimL
  rw [h1, h2, List.reverse_reverse]

/-- The normalized DOI never ends in whitespace (trailing whitespace is
trimmed before the head is stripped, and lower-casing keeps whitespace
status). -/
theorem normalizeDOI_trail_fix (s : String) :
    (normalizeDOI s).data.reverse.dropWhile jsIsSpace = (normalizeDOI s).data.reverse := by
  unfold normalizeDOI
  by_cases hs : s = ""
  · simp [hs]
  · simp only [hs, if_neg, ite_false]
    show (lowerStr ⟨stripDoiHead (jsTrim s).data⟩).data.reverse.dropWhile jsIsSpace = _
    obtain ⟨k, hk⟩ := stripDoiHead_eq_drop (jsTrim s).data
    have htrail : (jsTrim s).data.reverse.dropWhile jsIsSpace = (jsTrim s).data.reverse :=
      trimL_trail_fix s.data
    have hdrop := dropWhile_fix_drop htrail k
    simp only [lowerStr, toLowerL] at *
    rw [hk, ← List.map_reverse]
    exact dropWhile_fix_map_lower hdrop

theorem lowerStr_idem (x : String) : lowerStr (lowerStr x) = lowerStr x := by
  show (⟨toLowerL (toLowerL x.data)⟩ : String) = ⟨toLowerL x.data⟩
  rw [toLowerL_idem]

theorem normalizeDOI_idem_cond (s : String)
    (h1 : (normalizeDOI s).data.dropWhile jsIsSpace = (normalizeDOI s).data)
    (h2 : stripDoiHead (normalizeDOI s).data = (normalizeDOI s).data) :
    normalizeDOI (normalizeDOI s) = normalizeDOI s := by
  by_cases hv : normalizeDOI s = ""
  · rw [hv]; rfl
  · have htr : jsTrim (normalizeDOI s) = normalizeDOI s := by
      show (⟨trimL (normalizeDOI s).data⟩ : String) = _
      rw [trimL_eq_self h1 (normalizeDOI_trail_fix s)]
    have hlow : lowerStr (normalizeDOI s) = normalizeDOI s := by
      by_cases hs : s = ""
      · rw [hs] at hv; simp [normalizeDOI] at hv
      · have hform : normalizeDOI s = lowerStr ⟨stripDoiHead (jsTrim s).data⟩ := by
          unfold normalizeDOI; rw [if_neg hs]
        rw [hform, lowerStr_idem]
    show (if normalizeDOI s = "" then ""
          else lowerStr ⟨stripDoiHead (jsTrim (normalizeDOI s)).data⟩) = normalizeDOI s
    rw [if_neg hv, htr, h2]
    exact hlow

theorem levAux_self (l : List Char) : ∀ fuel, l.length ≤ fuel → levAux fuel l l = 0 := by
  induction l with
  | nil => intro fuel _; simp [levAux]
  | cons c t ih =>
    intro fuel hf
    cases fuel with
    | zero => simp at hf
    | succ fuel =>
      have : t.length ≤ fuel := by simp at hf; omega
      simp [levAux, ih fuel this]

theorem levDist_self (l : List Char) : levDist l l = 0 :=
  levAux_self l _ (by omega)

theorem alreadyExists_append (arr t : List Paper) (c : Paper) :
    alreadyExists (arr ++ t) c = (alreadyExists arr c || alreadyExists t c) := by
  unfold alreadyExists
  by_cases h1 : c.doi ≠ ""
  · simp [h1, List.any_append]
  · by_cases h2 : c.title ≠ "" <;> simp [h1, h2, List.any_append]

theorem alreadyExists_eq_any (arr : List Paper) (c : Paper) :
    alreadyExists arr c = arr.any (fun p => alreadyExists [p] c) := by
  unfold alreadyExists
  by_cases h1 : c.doi ≠ ""
  · simp [h1]
  · by_cases h2 : c.title ≠ "" <;> simp [h1, h2]

theorem alreadyExists_self {c : Paper}
    (h : c.doi ≠ "" ∨ normalizeTitle c.title ≠ "") {arr : List Paper}
    (hm : c ∈ arr) : alreadyExists arr c = true := by
  unfold alreadyExists
  by_cases hd : c.doi ≠ ""
  · rw [if_pos hd]
    refine List.any_eq_true.2 ⟨c, hm, ?_⟩
    simp [hd]
  · have ht : normalizeTitle c.title ≠ "" := by
      rcases h with h | h
      · exact absurd h hd
      · exact h
    have ht' : c.title ≠ "" := by
      intro hE
      rw [hE] at ht
      exact ht rfl
    rw [if_neg hd, if_pos ht']
    refine List.any_eq_true.2 ⟨c, hm, ?_⟩
    simp [ht, levDist_self]

theorem mergeList_fst_append (L : List Paper) :
    ∀ arr, ∃ t, (mergeList arr L).1 = arr ++ t ∧ ∀ p ∈ t, p ∈ L := by
  induction L with
  | nil => intro arr; exact ⟨[], by simp [mergeList], by simp⟩
  | cons np rest ih =>
    intro arr
    unfold mergeList
    by_cases h : alreadyExists arr np
    · rw [if_pos h]
      obtain ⟨t, ht, hmem⟩ := ih arr
      exact ⟨t, ht, fun p hp => List.mem_cons_of_mem _ (hmem p hp)⟩
    · rw [if_neg h]
      obtain ⟨t, ht, hmem⟩ := ih (arr ++ [np])
      refine ⟨[np] ++ t, by simp only [ht, List.append_assoc], ?_⟩
      intro p hp
      rcases List.mem_append.1 hp with hp | hp
      · rw [List.mem_singleton] at hp
        subst hp
        exact List.mem_cons_self p rest
      · exact List.mem_cons_of_mem _ (hmem p hp)

theorem mergeList_covers (L : List Paper) :
    ∀ arr, (∀ c ∈ L, c.doi ≠ "" ∨ normalizeTitle c.title ≠ "") →
      ∀ c ∈ L, alreadyExists (mergeList arr L).1 c = true := by
  induction L with
  | nil => intro arr _ c hc; cases hc
  | cons np rest ih =>
    intro arr hall c hc
    rw [List.mem_cons] at hc
    unfold mergeList
    by_cases h : alreadyExists arr np
    · rw [if_pos h]
      rcases hc with hc | hc
      · subst hc
        obtain ⟨t, ht, -⟩ := mergeList_fst_append rest arr
        rw [ht, alreadyExists_append, h, Bool.true_or]
      · exact ih arr (fun d hd => hall d (List.mem_cons_of_mem _ hd)) c hc
    · rw [if_neg h]
      rcases hc with hc | hc
      · subst hc
        obtain ⟨t, ht, -⟩ := mergeList_fst_append rest (arr ++ [c])
        show alreadyExists (mergeList (arr ++ [c]) rest).1 c = true
        rw [ht]
        exact alreadyExists_self (hall c (List.mem_cons_self c rest))
          (by simp)
      · exact ih (arr ++ [np]) (fun d hd => hall d (List.mem_cons_of_mem _ hd)) c hc

theorem mergeList_none (L : List Paper) (arr : List Paper)
    (h : ∀ c ∈ L, alreadyExists arr c = true) : mergeList arr L = (arr, 0) := by
  induction L with
  | nil => rfl
  | cons np rest ih =>
    unfold mergeList
    rw [if_pos (h np (List.mem_cons_self np rest))]
    exact ih (fun d hd => h d (List.mem_cons_of_mem _ hd))

theorem mergePapers_apply_self (S : Store) (k n : String) (L : List Paper) :
    (mergePapers S k n L).1 k =
      some ⟨(entryOf S k n).name, (mergeList (entryOf S k n).papers L).1⟩ := by
  simp [mergePapers]

theorem mergePapers_apply_other (S : Store) (k n : String) (L : List Paper)
    {j : String} (h : j ≠ k) : (mergePapers S k n L).1 j = S j := by
  simp [mergePapers, h]

theorem mergePapers_snd (S : Store) (k n : String) (L : List Paper) :
    (mergePapers S k n L).2 = (mergeList (entryOf S k n).papers L).2 := rfl

theorem entryOf_papers (S : Store) (k n : String) :
    (entryOf S k n).papers = oldPapersOf S k := by
  unfold entryOf oldPapersOf
  cases S k <;> rfl

/-- Claim C1 (amended): re-merging the same candidate list is idempotent
provided every candidate carries a non-empty DOI or a non-empty normalized
title — the second call adds 0 records and returns the store unchanged.
(Unconditionally the claim is false: a record with empty DOI and blank
normalized title is re-added on every run, see the counterexample.) -/
theorem mergePapers_resync_idempotent (S : Store) (k n : String) (L : List Paper)
    (h : ∀ r ∈ L, r.doi ≠ "" ∨ normalizeTitle r.title ≠ "") :
    mergePapers (mergePapers S k n L).1 k n L = ((mergePapers S k n L).1, 0) := by
  have hcov := mergeList_covers L (entryOf S k n).papers h
  have hentry : entryOf (mergePapers S k n L).1 k n =
      ⟨(entryOf S k n).name, (mergeList (entryOf S k n).papers L).1⟩ := by
    unfold entryOf
    rw [mergePapers_apply_self]
    rfl
  have hml : mergeList (mergeList (entryOf S k n).papers L).1 L
      = ((mergeList (entryOf S k n).papers L).1, 0) :=
    mergeList_none _ _ hcov
  rw [Prod.ext_iff]
  constructor
  · funext j
    by_cases hj : j = k
    · subst hj
      rw [mergePapers_apply_self, mergePapers_apply_self, hentry]
      have := congrArg Prod.fst hml
      simp only at this
      rw [this]
    · rw [mergePapers_apply_other _ _ _ _ hj]
  · rw [mergePapers_snd, hentry]
    have := congrArg Prod.snd hml
    simpa using this

/-- A record with no DOI and an empty title: `alreadyExists` can never
match it, so re-syncing it is not idempotent. -/
def blankPaper : Paper := {}

/-- Claim C1 counterexample: merging the same one-record list twice from
the empty store adds the record again on the second run (second `added`
count is 1, not 0, and the stored list has grown to two copies). -/
theorem mergePapers_resync_counterexample :
    (mergePapers (mergePapers emptyStore "k" "N" [blankPaper]).1 "k" "N" [blankPaper]).2 = 1 ∧
    (mergePapers (mergePapers emptyStore "k" "N" [blankPaper]).1 "k" "N" [blankPaper]).1 "k"
      = some ⟨"N", [blankPaper, blankPaper]⟩ := by
  constructor
  · rfl
  · rfl

/-- A well-formed candidate for the C1 witness. -/
def c1Paper : Paper := { title := "Sample Title", doi := "10.1/x" }

/-- Witness for C1's amended theorem at a concrete input. -/
theorem mergePapers_resync_idempotent_witness :
    (∀ r ∈ [c1Paper], r.doi ≠ "" ∨ normalizeTitle r.title ≠ "") ∧
    mergePapers (mergePapers emptyStore "k" "N" [c1Paper]).1 "k" "N" [c1Paper]
      = ((mergePapers emptyStore "k" "N" [c1Paper]).1, 0) :=
  ⟨by decide, mergePapers_resync_idempotent emptyStore "k" "N" [c1Paper] (by decide)⟩

/-- Claim C8: `mergePapers` only appends — the researcher's prior records
stay, in order, as the front of the updated list, everything appended comes
from the candidate list, and every other key of the store is untouched. -/
theorem mergePapers_append_only (S : Store) (k n : String) (L : List Paper) :
    (∃ t en, (mergePapers S k n L).1 k = some ⟨en, oldPapersOf S k ++ t⟩ ∧
      ∀ p ∈ t, p ∈ L) ∧
    ∀ j, j ≠ k → (mergePapers S k n L).1 j = S j := by
  constructor
  · obtain ⟨t, ht, hmem⟩ := mergeList_fst_append L (entryOf S k n).papers
    refine ⟨t, (entryOf S k n).name, ?_, hmem⟩
    rw [mergePapers_apply_self, ht, entryOf_papers]
  · intro j hj
    exact mergePapers_apply_other _ _ _ _ hj

/-- A prior store for the C8 witness: key `"k"` already holds one paper. -/
def c8Store : Store :=
  fun j => if j = "k" then some ⟨"N", [c1Paper]⟩ else none

/-- Witness for C8 at a concrete input (including the `j ≠ k` frame
hypothesis discharged at `j = "j"`). -/
theorem mergePapers_append_only_witness :
    (∃ t en, (mergePapers c8Store "k" "N" [blankPaper]).1 "k"
        = some ⟨en, oldPapersOf c8Store "k" ++ t⟩ ∧ ∀ p ∈ t, p ∈ [blankPaper]) ∧
    (mergePapers c8Store "k" "N" [blankPaper]).1 "j" = c8Store "j" :=
  ⟨(mergePapers_append_only c8Store "k" "N" [blankPaper]).1,
   (mergePapers_append_only c8Store "k" "N" [blankPaper]).2 "j" (by decide)⟩

/-- The order-respecting dedup invariant: no record is a duplicate (in the
sense of `alreadyExists`) of any record that precedes it in the list. -/
def dedupOrdered (l : List Paper) : Prop :=
  l.Pairwise (fun a b => alreadyExists [a] b = false)

/-- The invariant over the whole store. -/
def storeOrdInv (S : Store) : Prop :=
  ∀ k e, S k = some e → dedupOrdered e.papers

theorem mergeList_pairwise (L : List Paper) :
    ∀ arr, dedupOrdered arr → dedupOrdered (mergeList arr L).1 := by
  induction L with
  | nil => intro arr h; exact h
  | cons np rest ih =>
    intro arr h
    unfold mergeList
    by_cases he : alreadyExists arr np
    · rw [if_pos he]; exact ih arr h
    · rw [if_neg he]
      refine ih (arr ++ [np]) (List.pairwise_append.2 ⟨h, ?_, ?_⟩)
      · exact List.pairwise_singleton _ _
      · intro a ha b hb
        rw [List.mem_singleton] at hb
        rw [hb]
        have hfalse : alreadyExists arr np = false := by
          simpa using he
        rw [alreadyExists_eq_any] at hfalse
        have := List.any_eq_false.1 hfalse a ha
        simpa using this

/-- Claim C7 (amended): `mergePapers` preserves the order-respecting dedup
invariant — in every reachable store, no record in a researcher's list is a
duplicate of any EARLIER record.  (The claim's symmetric version, covering
both orders of each pair, is false: a later DOI-carrying record can be a
title-duplicate of an earlier DOI-less record, see the counterexample.) -/
theorem mergePapers_pairwise_invariant (S : Store) (k n : String) (L : List Paper)
    (h : storeOrdInv S) : storeOrdInv (mergePapers S k n L).1 := by
  intro j e hj
  by_cases hjk : j = k
  · subst hjk
    rw [mergePapers_apply_self] at hj
    injection hj with hj
    subst hj
    show dedupOrdered (mergeList (entryOf S j n).papers L).1
    apply mergeList_pairwise
    unfold entryOf
    cases hS : S j with
    | none => exact List.Pairwise.nil
    | some e₀ => exact h j e₀ hS
  · rw [mergePapers_apply_other _ _ _ _ hjk] at hj
    exact h j e hj

/-- A DOI-less record whose title matches `c7WithDoi`'s. -/
def c7NoDoi : Paper := { title := "abc" }

/-- A DOI-carrying record with the same title. -/
def c7WithDoi : Paper := { title := "abc", doi := "10.1/x" }

/-- Claim C7 counterexample: one `mergePapers` call from the empty store
reaches a state whose list holds two distinct records that the dedup rule
considers duplicates (`alreadyExists [c7WithDoi] c7NoDoi = true`): the
DOI-carrying record is inserted past the title check, but its earlier
DOI-less twin still title-matches it. -/
theorem mergePapers_pairwise_counterexample :
    (mergePapers emptyStore "k" "N" [c7NoDoi, c7WithDoi]).1 "k"
        = some ⟨"N", [c7NoDoi, c7WithDoi]⟩ ∧
    c7NoDoi ≠ c7WithDoi ∧ alreadyExists [c7WithDoi] c7NoDoi = true :=
  ⟨rfl, by decide, by decide⟩

/-- Witness for C7's amended theorem: the empty store satisfies the
invariant, and so does the store after a concrete merge. -/
theorem mergePapers_pairwise_invariant_witness :
    storeOrdInv emptyStore ∧
    storeOrdInv (mergePapers emptyStore "k" "N" [c1Paper]).1 :=
  ⟨fun _ _ h => Option.noConfusion h,
   mergePapers_pairwise_invariant emptyStore "k" "N" [c1Paper]
     (fun _ _ h => Option.noConfusion h)⟩

/-- An existing record with an empty `doi` field. -/
def c2NoDoi : Paper := { title := "t" }

/-- A candidate whose non-empty `doi` normalizes to the empty string. -/
def c2DegenerateDoi : Paper := { doi := "https://doi.org/" }

/-- Claim C2 counterexample: the claim's right-hand side ("some record in E
has a normalized DOI equal to the candidate's") holds — both normalize to
`""` — yet `alreadyExists` returns `false`, because the code additionally
requires the existing record's raw `doi` to be non-empty (truthy). -/
theorem alreadyExists_doi_claim_counterexample :
    c2DegenerateDoi.doi ≠ "" ∧
    (∃ p ∈ [c2NoDoi], normalizeDOI p.doi = normalizeDOI c2DegenerateDoi.doi) ∧
    alreadyExists [c2NoDoi] c2DegenerateDoi = false := by decide

/-- Claim C2 (amended): for a candidate with non-empty `doi`,
`alreadyExists` is true iff some existing record WITH A NON-EMPTY `doi`
field has the same normalized DOI; titles (of the candidate and of the
existing records) are irrelevant, and the result is invariant under
permutation of the existing list. -/
theorem alreadyExists_doi_match_spec (E : List Paper) (c : Paper) (h : c.doi ≠ "") :
    (alreadyExists E c = true ↔
      ∃ p ∈ E, p.doi ≠ "" ∧ normalizeDOI p.doi = normalizeDOI c.doi) ∧
    (∀ t, alreadyExists E { c with title := t } = alreadyExists E c) ∧
    (∀ f : Paper → String,
      alreadyExists (E.map (fun p => { p with title := f p })) c = alreadyExists E c) ∧
    (∀ E', E.Perm E' → alreadyExists E' c = alreadyExists E c) := by
  refine ⟨?_, ?_, ?_, ?_⟩
  · simp [alreadyExists, h, List.any_eq_true]
  · intro t
    simp [alreadyExists, h]
  · intro f
    simp only [alreadyExists, h, if_pos, ne_eq, not_false_iff, if_true, List.any_map]
    rfl
  · intro E' hp
    rw [Bool.eq_iff_iff]
    simp only [alreadyExists, h, if_pos, ne_eq, not_false_iff, if_true,
      List.any_eq_true]
    constructor
    · rintro ⟨p, hm, hpred⟩
      exact ⟨p, hp.mem_iff.2 hm, hpred⟩
    · rintro ⟨p, hm, hpred⟩
      exact ⟨p, hp.mem_iff.1 hm, hpred⟩

/-- Witness records for C2's amended theorem. -/
def c2Existing : Paper := { title := "Old Title", doi := "10.1/x" }

def c2Candidate : Paper := { title := "Other Title", doi := "https://DOI.org/10.1/X" }

/-- Witness for C2 at a concrete input. -/
theorem alreadyExists_doi_match_spec_witness :
    c2Candidate.doi ≠ "" ∧
    ((alreadyExists [c2Existing] c2Candidate = true ↔
        ∃ p ∈ [c2Existing], p.doi ≠ "" ∧
          normalizeDOI p.doi = normalizeDOI c2Candidate.doi) ∧
      (∀ t, alreadyExists [c2Existing] { c2Candidate with title := t }
          = alreadyExists [c2Existing] c2Candidate) ∧
      (∀ f : Paper → String,
        alreadyExists ([c2Existing].map (fun p => { p with title := f p })) c2Candidate
          = alreadyExists [c2Existing] c2Candidate) ∧
      (∀ E', [c2Existing].Perm E' →
        alreadyExists E' c2Candidate = alreadyExists [c2Existing] c2Candidate)) :=
  ⟨by decide, alreadyExists_doi_match_spec [c2Existing] c2Candidate (by decide)⟩

/-- An existing record whose short title is within distance 6 of the empty
string. -/
def c3Existing : Paper := { title := "abc" }

/-- A candidate with empty `doi` and empty `title`. -/
def c3Blank : Paper := {}

/-- Claim C3 counterexample: the claim's right-hand side holds (the
existing record's normalized title `"abc"` is non-empty and within edit
distance 6 of the candidate's normalized title `""`), yet `alreadyExists`
returns `false`: the code never reaches the title scan when the
candidate's title is empty (falsy). -/
theorem alreadyExists_title_claim_counterexample :
    c3Blank.doi = "" ∧
    (∃ p ∈ [c3Existing], normalizeTitle p.title ≠ "" ∧
      levDist (normalizeTitle c3Blank.title).data (normalizeTitle p.title).data
        ≤ MAX_TITLE_DISTANCE) ∧
    alreadyExists [c3Existing] c3Blank = false := by decide

/-- Claim C3 (amended): for a candidate with empty `doi`, `alreadyExists`
is true iff the candidate's title is non-empty AND some existing record has
a non-empty normalized title within Levenshtein distance
`MAX_TITLE_DISTANCE = 6` of the candidate's normalized title (so distance 7
or more never matches, and an empty normalized existing title never
matches). -/
theorem alreadyExists_title_match_spec (E : List Paper) (c : Paper) (h : c.doi = "") :
    alreadyExists E c = true ↔
      (c.title ≠ "" ∧ ∃ p ∈ E, normalizeTitle p.title ≠ "" ∧
        levDist (normalizeTitle c.title).data (normalizeTitle p.title).data
          ≤ MAX_TITLE_DISTANCE) := by
  by_cases ht : c.title = ""
  · simp [alreadyExists, h, ht]
  · simp [alreadyExists, h, ht, List.any_eq_true]

/-- Witness records for C3. -/
def c3Candidate : Paper := { title := "ab" }

def c3Near : Paper := { title := "ab!" }

/-- Witness for C3 at a concrete input. -/
theorem alreadyExists_title_match_spec_witness :
    c3Candidate.doi = "" ∧
    (alreadyExists [c3Near] c3Candidate = true ↔
      (c3Candidate.title ≠ "" ∧ ∃ p ∈ [c3Near], normalizeTitle p.title ≠ "" ∧
        levDist (normalizeTitle c3Candidate.title).data (normalizeTitle p.title).data
          ≤ MAX_TITLE_DISTANCE)) :=
  ⟨rfl, alreadyExists_title_match_spec [c3Near] c3Candidate rfl⟩

theorem collapseWsAux_eq_spec (l : List Char) :
    collapseWsAux false l = specSquashWs l ∧
    ' ' :: collapseWsAux true l = specSquashWs (' ' :: l) := by
  have hsp : jsIsSpace ' ' = true := rfl
  induction l with
  | nil => exact ⟨rfl, rfl⟩
  | cons c rest ih =>
    obtain ⟨ih1, ih2⟩ := ih
    have part1 : collapseWsAux false (c :: rest) = specSquashWs (c :: rest) := by
      by_cases hc : jsIsSpace c
      · cases rest with
        | nil => simp [collapseWsAux, specSquashWs, hc]
        | cons d r =>
          by_cases hd : jsIsSpace d
          · have h1 : collapseWsAux false (c :: d :: r) = ' ' :: collapseWsAux true (d :: r) := by
              simp [collapseWsAux, hc, hd]
            have h2 : specSquashWs (c :: d :: r) = specSquashWs (d :: r) := by
              simp [specSquashWs, hc, hd]
            have h3 : specSquashWs (' ' :: d :: r) = specSquashWs (d :: r) := by
              simp [specSquashWs, hd, hsp]
            rw [h1, h2, ← h3]
            exact ih2
          · have h1 : collapseWsAux false (c :: d :: r) = ' ' :: collapseWsAux true (d :: r) := by
              simp [collapseWsAux, hc]
            have h2 : specSquashWs (c :: d :: r) = ' ' :: specSquashWs (d :: r) := by
              simp [specSquashWs, hc, hd]
            have h4 : collapseWsAux true (d :: r) = collapseWsAux false (d :: r) := by
              simp [collapseWsAux, hd]
            rw [h1, h2, h4, ih1]
      · cases rest with
        | nil => simp [collapseWsAux, specSquashWs, hc]
        | cons d r =>
          have h1 : collapseWsAux false (c :: d :: r) = c :: collapseWsAux false (d :: r) := by
            simp [collapseWsAux, hc]
          have h2 : specSquashWs (c :: d :: r) = c :: specSquashWs (d :: r) := by
            simp [specSquashWs, hc]
          rw [h1, h2, ih1]
    refine ⟨part1, ?_⟩
    by_cases hc : jsIsSpace c
    · have h1 : collapseWsAux true (c :: rest) = collapseWsAux true rest := by
        simp [collapseWsAux, hc]
      have h2 : specSquashWs (' ' :: c :: rest) = specSquashWs (c :: rest) := by
        simp [specSquashWs, hc, hsp]
      have h3 : collapseWsAux false (c :: rest) = ' ' :: collapseWsAux true rest := by
        simp [collapseWsAux, hc]
      rw [h1, h2, ← part1, h3]
    · have h1 : collapseWsAux true (c :: rest) = c :: collapseWsAux false rest := by
        simp [collapseWsAux, hc]
      have h2 : specSquashWs (' ' :: c :: rest) = ' ' :: specSquashWs (c :: rest) := by
        simp [specSquashWs, hc, hsp]
      rw [h1, h2, ← part1]
      simp [collapseWsAux, hc]

theorem collapseWs_eq_spec (l : List Char) : collapseWs l = specSquashWs l :=
  (collapseWsAux_eq_spec l).1

theorem normalizeTitle_eq_specAmended (t : String) :
    normalizeTitle t = specNormalizeTitleAmended t := by
  unfold normalizeTitle specNormalizeTitleAmended
  rw [collapseWs_eq_spec]

/-- Claim C5 (amended): `normalizeTitle` equals the reference definition
with the two phases in the code's order — collapse whitespace runs to a
single space FIRST, then remove characters outside `[a-zA-Z0-9 ]` (spaces
left adjacent by a removal are not re-collapsed), then trim and
lower-case; empty input yields the empty string, and
`normalizeTitle "Deep-Learning, 2021!" = "deeplearning 2021"`.
(The claim's order — remove first, collapse second — is refuted by the
counterexample.) -/
theorem normalizeTitle_spec :
    (∀ t, normalizeTitle t = specNormalizeTitleAmended t) ∧
    normalizeTitle "" = "" ∧
    normalizeTitle "Deep-Learning, 2021!" = "deeplearning 2021" :=
  ⟨normalizeTitle_eq_specAmended, rfl, by decide⟩

/-- Claim C5 counterexample: on `"a - b"` the code yields `"a  b"` (the
space pair left by deleting `"-"` is kept), while the claim's reference
definition (remove first, then collapse) yields `"a b"`. -/
theorem normalizeTitle_ref_counterexample :
    normalizeTitle "a - b" ≠ specNormalizeTitleClaim "a - b" ∧
    normalizeTitle "a - b" = "a  b" ∧
    specNormalizeTitleClaim "a - b" = "a b" := by
  refine ⟨by decide, by decide, by decide⟩

/-- Claim C4 (amended): `normalizeDOI` trims outer whitespace, strips one
of the four `http(s)://(dx.)doi.org/` heads case-insensitively, and
lower-cases; empty input yields the empty string, and the claim's concrete
example holds.  Idempotence holds for every input whose normalized form
neither starts with whitespace nor itself begins with such a head — but
NOT unconditionally (see the counterexample): trimming happens before the
head is stripped, so a space or a second head hidden behind the stripped
head survives one normalization and disappears under a second. -/
theorem normalizeDOI_spec :
    normalizeDOI "" = "" ∧
    normalizeDOI "https://DOI.org/10.1/ABC" = "10.1/abc" ∧
    normalizeDOI "HTTP://doi.org/10.1/ABC" = "10.1/abc" ∧
    normalizeDOI "https://dx.DOI.org/10.1/ABC" = "10.1/abc" ∧
    normalizeDOI "HTTP://DX.doi.org/10.1/ABC" = "10.1/abc" ∧
    normalizeDOI "  10.1/AbC\t" = "10.1/abc" ∧
    ∀ s, (normalizeDOI s).data.dropWhile jsIsSpace = (normalizeDOI s).data →
      stripDoiHead (normalizeDOI s).data = (normalizeDOI s).data →
      normalizeDOI (normalizeDOI s) = normalizeDOI s :=
  ⟨rfl, by decide, by decide, by decide, by decide, by decide,
   fun s h1 h2 => normalizeDOI_idem_cond s h1 h2⟩

/-- Claim C4 counterexample: `normalizeDOI` is not idempotent — on
`"https://doi.org/ 10.1/x"` one application yields `" 10.1/x"` (the inner
space was not leading before the head was stripped) and a second
application trims it away. -/
theorem normalizeDOI_idempotent_counterexample :
    normalizeDOI (normalizeDOI "https://doi.org/ 10.1/x")
      ≠ normalizeDOI "https://doi.org/ 10.1/x" ∧
    normalizeDOI "https://doi.org/ 10.1/x" = " 10.1/x" ∧
    normalizeDOI (normalizeDOI "https://doi.org/ 10.1/x") = "10.1/x" := by
  refine ⟨by decide, by decide, by decide⟩

/-- Witness for C4's conditional-idempotence conjunct at
`s = "https://DOI.org/10.1/ABC"` (whose normalized form `"10.1/abc"` has
no leading whitespace and no doi.org head). -/
theorem normalizeDOI_spec_witness :
    (normalizeDOI "https://DOI.org/10.1/ABC").data.dropWhile jsIsSpace
        = (normalizeDOI "https://DOI.org/10.1/ABC").data ∧
    stripDoiHead (normalizeDOI "https://DOI.org/10.1/ABC").data
        = (normalizeDOI "https://DOI.org/10.1/ABC").data ∧
    normalizeDOI (normalizeDOI "https://DOI.org/10.1/ABC")
        = normalizeDOI "https://DOI.org/10.1/ABC" :=
  ⟨by decide, by decide,
   normalizeDOI_spec.2.2.2.2.2.2 "https://DOI.org/10.1/ABC" (by decide) (by decide)⟩

/-- Claim C6 (amended): the orchestrator performs NO author-search
fallback.  A researcher whose fetch-and-enrich step yields zero records
simply has zero records merged (the entry is created with, or keeps, its
stored papers and the `added` count is 0), and no record is ever tagged
with a fallback source marker: the only `source` values the pipeline
produces are `"ORCID"` (registry-only) and `"CrossRef/ORCID"` (enriched).
(The claimed fallback behaviour is refuted by the counterexample.) -/
theorem orchestrator_no_fallback :
    (∀ (lookup : String → Except String CrMsg) (S : Store) (k n : String),
      processResearcher lookup S k n [] =
        (fun j => if j = k then some ⟨(entryOf S k n).name, oldPapersOf S k⟩ else S j, 0)) ∧
    (∀ summary detail rnd, (transformOrcidWork summary detail rnd).source = "ORCID") ∧
    (∀ (lookup : String → Except String CrMsg) (op : Paper),
      (enrichWork lookup op).source = "CrossRef/ORCID" ∨
        (enrichWork lookup op).source = op.source) := by
  refine ⟨?_, ?_, ?_⟩
  · intro lookup S k n
    show mergePapers S k n [] = _
    rw [Prod.ext_iff]
    constructor
    · funext j
      show (mergePapers S k n []).1 j
          = if j = k then some ⟨(entryOf S k n).name, oldPapersOf S k⟩ else S j
      by_cases hj : j = k
      · subst hj
        rw [mergePapers_apply_self, if_pos rfl, entryOf_papers]
        rfl
      · rw [mergePapers_apply_other _ _ _ _ hj, if_neg hj]
    · rfl
  · intro summary detail rnd
    rfl
  · intro lookup op
    unfold enrichWork
    by_cases hd : op.doi ≠ ""
    · rw [if_pos hd]
      cases fetchCrossrefSafe lookup op.doi with
      | some cr => exact Or.inl rfl
      | none => exact Or.inr rfl
    · rw [if_neg hd]
      exact Or.inr rfl

/-- Claim C6 counterexample: for a researcher whose fetch-and-enrich step
yields zero records, the orchestrator produces an entry with an EMPTY
papers list and adds 0 records — no author-name search is consulted and
no record tagged with any fallback source marker exists. -/
theorem orchestrator_fallback_counterexample :
    (processResearcher (fun _ => .error "net down") emptyStore "jdoe" "Jane Doe" []).1 "jdoe"
        = some ⟨"Jane Doe", []⟩ ∧
    (processResearcher (fun _ => .error "net down") emptyStore "jdoe" "Jane Doe" []).2 = 0 :=
  ⟨rfl, rfl⟩

theorem mainStep_error (f : String → Except String (List Paper))
    (g : String → Except String CrMsg) (acc : Store × Nat) (k : String)
    (info : FacultyInfo) (msg : String)
    (ho : info.orcid ≠ "") (he : f (jsTrim info.orcid) = .error msg) :
    mainStep f g acc (k, info) = acc := by
  unfold mainStep
  rw [if_neg ho]
  show (match f (jsTrim info.orcid) with
        | .error _ => acc
        | .ok papers =>
          let r := processResearcher g acc.1 k (if info.name ≠ "" then info.name else k) papers
          (r.1, acc.2 + r.2)) = acc
  rw [he]

theorem foldl_mainStep_frame (f : String → Except String (List Paper))
    (g : String → Except String CrMsg) (j : String) :
    ∀ (m : List (String × FacultyInfo)) (acc : Store × Nat),
      j ∉ m.map Prod.fst → (m.foldl (mainStep f g) acc).1 j = acc.1 j := by
  intro m
  induction m with
  | nil => intro acc _; rfl
  | cons kv rest ih =>
    intro acc hj
    rw [List.map_cons, List.mem_cons] at hj
    push_neg at hj
    rw [List.foldl_cons, ih _ hj.2]
    unfold mainStep
    by_cases h1 : kv.2.orcid = ""
    · rw [if_pos h1]
    · rw [if_neg h1]
      cases f (jsTrim kv.2.orcid) with
      | error e => rfl
      | ok papers =>
        show (mergePapers acc.1 kv.1 _ _).1 j = acc.1 j
        exact mergePapers_apply_other _ _ _ _ hj.1

/-- Claim C9: a researcher whose works fetch throws is absorbed at the
researcher boundary — the run behaves exactly as if that researcher were
absent from the mapping (so the remaining researchers are all processed),
that researcher's store entry is untouched (when no other mapping entry
shares the key), and the exit code is 0; only a missing or empty mapping
document exits with code 1. -/
theorem main_error_isolation (f : String → Except String (List Paper))
    (g : String → Except String CrMsg) (m₁ m₂ : List (String × FacultyInfo))
    (k : String) (info : FacultyInfo) (msg : String) (S₀ : Store)
    (ho : info.orcid ≠ "") (he : f (jsTrim info.orcid) = .error msg) :
    runMainCore f g (m₁ ++ (k, info) :: m₂) S₀ = runMainCore f g (m₁ ++ m₂) S₀ ∧
    (k ∉ (m₁ ++ m₂).map Prod.fst →
      (runMainCore f g (m₁ ++ (k, info) :: m₂) S₀).1 k = S₀ k) ∧
    (mainRun (some (m₁ ++ (k, info) :: m₂)) f g S₀).1 = 0 ∧
    (mainRun none f g S₀).1 = 1 ∧
    (mainRun (some []) f g S₀).1 = 1 := by
  have hskip : runMainCore f g (m₁ ++ (k, info) :: m₂) S₀
      = runMainCore f g (m₁ ++ m₂) S₀ := by
    unfold runMainCore
    rw [List.foldl_append, List.foldl_append, List.foldl_cons,
      mainStep_error f g _ k info msg ho he]
  refine ⟨hskip, ?_, ?_, rfl, rfl⟩
  · intro hk
    rw [hskip]
    exact foldl_mainStep_frame f g k (m₁ ++ m₂) (S₀, 0) hk
  · show (if (m₁ ++ (k, info) :: m₂) = [] then (1, S₀)
        else (0, (runMainCore f g (m₁ ++ (k, info) :: m₂) S₀).1)).1 = 0
    rw [if_neg (by simp)]

/-- Concrete oracles and mapping for the C9 witness. -/
def c9Fetch : String → Except String (List Paper) :=
  fun s => if s = "orc2" then .error "boom" else .ok []

def c9Lookup : String → Except String CrMsg := fun _ => .error "offline"

def c9Before : List (String × FacultyInfo) := [("a", ⟨"A", "orc1"⟩)]

def c9After : List (String × FacultyInfo) := [("c", ⟨"C", "orc3"⟩)]

def c9Info : FacultyInfo := ⟨"B", "orc2"⟩

/-- Witness for C9 at a concrete three-researcher mapping whose middle
researcher's fetch throws. -/
theorem main_error_isolation_witness :
    c9Info.orcid ≠ "" ∧ c9Fetch (jsTrim c9Info.orcid) = .error "boom" ∧
    runMainCore c9Fetch c9Lookup (c9Before ++ ("b", c9Info) :: c9After) emptyStore
      = runMainCore c9Fetch c9Lookup (c9Before ++ c9After) emptyStore ∧
    (runMainCore c9Fetch c9Lookup (c9Before ++ ("b", c9Info) :: c9After) emptyStore).1 "b"
      = emptyStore "b" ∧
    (mainRun (some (c9Before ++ ("b", c9Info) :: c9After)) c9Fetch c9Lookup emptyStore).1 = 0 :=
  ⟨by decide, rfl,
   (main_error_isolation c9Fetch c9Lookup c9Before c9After "b" c9Info "boom" emptyStore
     (by decide) rfl).1,
   (main_error_isolation c9Fetch c9Lookup c9Before c9After "b" c9Info "boom" emptyStore
     (by decide) rfl).2.1 (by decide),
   (main_error_isolation c9Fetch c9Lookup c9Before c9After "b" c9Info "boom" emptyStore
     (by decide) rfl).2.2.1⟩

theorem detailDoi_image (ids : List ExtId) : ∃ s, detailDoi ids = normalizeDOI s := by
  unfold detailDoi
  suffices h : ∀ (l : List ExtId) (acc : String), (∃ s, acc = normalizeDOI s) →
      ∃ s, l.foldl (fun acc e =>
        if acc = "" ∧ containsDoi e.idType then
          normalizeDOI (if e.idValue ≠ "" then e.idValue else e.idUrl)
        else acc) acc = normalizeDOI s by
    exact h ids "" ⟨"", rfl⟩
  intro l
  induction l with
  | nil => intro acc hacc; exact hacc
  | cons e rest ih =>
    intro acc hacc
    rw [List.foldl_cons]
    by_cases hc : acc = "" ∧ containsDoi e.idType
    · rw [if_pos hc]
      exact ih _ ⟨_, rfl⟩
    · rw [if_neg hc]
      exact ih _ hacc

theorem extractDoi_image (summary : OrcidSummary) :
    ∃ s, extractDoiFromOrcidSummary summary = normalizeDOI s := by
  obtain ⟨t, y, j, dn, extIds, pa, pc⟩ := summary
  unfold extractDoiFromOrcidSummary
  cases extIds with
  | none => exact ⟨"", rfl⟩
  | some ext =>
    cases hf : ext.find? (fun e => containsDoi e.idType) with
    | none =>
      refine ⟨"", ?_⟩
      show (match ext.find? (fun e => containsDoi e.idType) with
        | some e => normalizeDOI (if e.idValue ≠ "" then e.idValue else e.idUrl)
        | none => "") = normalizeDOI ""
      rw [hf]
      rfl
    | some e =>
      refine ⟨if e.idValue ≠ "" then e.idValue else e.idUrl, ?_⟩
      show (match ext.find? (fun e => containsDoi e.idType) with
        | some e => normalizeDOI (if e.idValue ≠ "" then e.idValue else e.idUrl)
        | none => "") = normalizeDOI (if e.idValue ≠ "" then e.idValue else e.idUrl)
      rw [hf]

/-- Claim C10 (amended): every DOI the pipeline writes into a record is
the `normalizeDOI`-image of a source string — `transformOrcidWork` and
`fetchCrossref` apply `normalizeDOI` at every production site, enrichment
re-applies it, and `mergePapers` only moves records unchanged.  The
stronger property as claimed — `normalizeDOI doi = doi` for every
non-empty produced `doi` — fails because `normalizeDOI` itself is not
idempotent (see the counterexample). -/
theorem pipeline_doi_normalized :
    (∀ summary detail rnd, ∃ s, (transformOrcidWork summary detail rnd).doi = normalizeDOI s) ∧
    (∀ (lookup : String → Except String CrMsg) (op : Paper), op.doi ≠ "" →
      (enrichWork lookup op).doi = normalizeDOI op.doi) ∧
    (∀ (lookup : String → Except String CrMsg) (raw : String) (p : CrPaper),
      fetchCrossref lookup raw = .ok p → p.doi = normalizeDOI raw) ∧
    (∀ (S : Store) (k n : String) (L : List Paper) (j : String) (e : Entry) (p : Paper),
      (mergePapers S k n L).1 j = some e → p ∈ e.papers →
        (∃ e₀, S j = some e₀ ∧ p ∈ e₀.papers) ∨ p ∈ L) := by
  refine ⟨?_, ?_, ?_, ?_⟩
  · intro summary detail rnd
    show ∃ s, (match detail with
      | some d =>
        match d.externalIdentifiers with
        | some ids => detailDoi ids
        | none => extractDoiFromOrcidSummary summary
      | none => extractDoiFromOrcidSummary summary) = normalizeDOI s
    cases detail with
    | none => exact extractDoi_image summary
    | some d =>
      obtain ⟨dt, dy, dj, dsn, dcs, dids, du⟩ := d
      cases dids with
      | none => exact extractDoi_image summary
      | some ids => exact detailDoi_image ids
  · intro lookup op hd
    unfold enrichWork
    rw [if_pos hd]
    cases fetchCrossrefSafe lookup op.doi with
    | some cr => rfl
    | none => rfl
  · intro lookup raw p hp
    unfold fetchCrossref at hp
    by_cases hz : normalizeDOI raw = ""
    · rw [if_pos hz] at hp
      exact Except.noConfusion hp
    · rw [if_neg hz] at hp
      cases hl : lookup (normalizeDOI raw) with
      | error e =>
        rw [hl] at hp
        exact Except.noConfusion hp
      | ok msg =>
        rw [hl] at hp
        injection hp with hp
        rw [← hp]
  · intro S k n L j e p hj hp
    by_cases hjk : j = k
    · subst hjk
      rw [mergePapers_apply_self] at hj
      injection hj with hj
      subst hj
      obtain ⟨t, ht, hmem⟩ := mergeList_fst_append L (entryOf S j n).papers
      rw [ht] at hp
      rcases List.mem_append.1 hp with hp | hp
      · rw [entryOf_papers] at hp
        unfold oldPapersOf at hp
        cases hS : S j with
        | none => rw [hS] at hp; cases hp
        | some e₀ =>
          rw [hS] at hp
          exact Or.inl ⟨e₀, rfl, hp⟩
      · exact Or.inr (hmem p hp)
    · rw [mergePapers_apply_other _ _ _ _ hjk] at hj
      exact Or.inl ⟨e, hj, hp⟩

/-- The ORCID summary whose external id carries a space after the
stripped head. -/
def c10Summary : OrcidSummary :=
  { extIds := some [{ idType := "doi", idValue := "https://doi.org/ 10.1/x" }] }

/-- Claim C10 counterexample: `transformOrcidWork` emits a record whose
non-empty `doi` is NOT in canonical form — `normalizeDOI` maps
`" 10.1/x"` to `"10.1/x"`, so `normalizeDOI record.doi ≠ record.doi`. -/
theorem transformOrcidWork_doi_counterexample :
    (transformOrcidWork c10Summary none "r0").doi = " 10.1/x" ∧
    (transformOrcidWork c10Summary none "r0").doi ≠ "" ∧
    normalizeDOI (transformOrcidWork c10Summary none "r0").doi
      ≠ (transformOrcidWork c10Summary none "r0").doi := by
  refine ⟨by decide, by decide, by decide⟩

/-- CrossRef oracle and expected record for the C10 witness. -/
def c10Lookup : String → Except String CrMsg := fun _ => .ok {}

def c10CrPaper : CrPaper := { doi := "10.1/x", url := "https://doi.org/10.1/x" }

/-- Witness for C10's hypothesis-bearing conjuncts at concrete inputs. -/
theorem pipeline_doi_normalized_witness :
    c1Paper.doi ≠ "" ∧
    (enrichWork c10Lookup c1Paper).doi = normalizeDOI c1Paper.doi ∧
    fetchCrossref c10Lookup "10.1/X" = .ok c10CrPaper ∧
    c10CrPaper.doi = normalizeDOI "10.1/X" ∧
    ((∃ e₀, emptyStore "k" = some e₀ ∧ c1Paper ∈ e₀.papers) ∨ c1Paper ∈ [c1Paper]) :=
  ⟨by decide,
   pipeline_doi_normalized.2.1 c10Lookup c1Paper (by decide),
   rfl,
   pipeline_doi_normalized.2.2.1 c10Lookup "10.1/X" c10CrPaper rfl,
   pipeline_doi_normalized.2.2.2 emptyStore "k" "N" [c1Paper] "k" ⟨"N", [c1Paper]⟩ c1Paper
     rfl (by decide)⟩
